import Mathlib

/-!
Shallow embedding of the scheduling/execution core of `src/gauss_filter.cu`
(Gaussian-filter batch image processor).  Paths are modelled as lists of
characters (`PathStr`), the filesystem as lists of component paths (`FS`),
the transform collaborator as a fallible function (`Transform`), and the
thread-based batch scheduler as an event-trace step relation (`Sched`).
-/

namespace GaussFilter

/-- A C++ `std::string` path, modelled as a list of characters. -/
abbrev PathStr := List Char

/-- Character class of `find_last_of("/\\")` in `processBatch` (line 140). -/
def isSep (c : Char) : Bool := c == '/' || c == '\\'

/-- Character class of `find_last_of(".")` in `processBatch` (line 142). -/
def isDot (c : Char) : Bool := c == '.'

/-- Index of the last character satisfying `q`, or `none`
(`std::string::find_last_of` returning `npos`). -/
def findLastIdx (q : Char → Bool) : List Char → Option Nat
  | [] => none
  | c :: cs =>
    match findLastIdx q cs with
    | some i => some (i + 1)
    | none => if q c then some 0 else none

/-- `imagePath.substr(imagePath.find_last_of("/\\") + 1)` (line 140); when no
separator occurs, `npos + 1` overflows to `0`, so the whole string is kept. -/
def basenameOf (p : PathStr) : PathStr :=
  match findLastIdx isSep p with
  | some i => p.drop (i + 1)
  | none => p

/-- The fixed suffix token and target extension appended at line 142. -/
def filterSuffix : PathStr := "_gauss_filtered.pgm".toList

/-- `s.substr(0, s.find_last_of("."))` (line 142); `substr(0, npos)` is the
whole string. -/
def stripLastDot (s : PathStr) : PathStr :=
  match findLastIdx isDot s with
  | some i => s.take i
  | none => s

/-- The output path computed by the worker lambda (lines 139-142):
join `outputDir`, `"/"`, and the base name, then truncate at the last `.`
of the joined string and append the suffix. -/
def resolveOutputPath (imagePath outputDir : PathStr) : PathStr :=
  stripLastDot (outputDir ++ '/' :: basenameOf imagePath) ++ filterSuffix

/-- Modelled from the spec: the resolver as described in section 4.3 —
extract the base name, strip the extension of the base name alone, append
the fixed suffix and extension, and join with the output directory. -/
def specResolveOutputPath (imagePath outputDir : PathStr) : PathStr :=
  outputDir ++ '/' :: (stripLastDot (basenameOf imagePath) ++ filterSuffix)

example : resolveOutputPath "/a/img.bmp".toList "/out".toList
    = "/out/img_gauss_filtered.pgm".toList := by decide

example : resolveOutputPath "/a/img".toList "../out".toList
    = "._gauss_filtered.pgm".toList := by decide

/-! ## Per-task processing (`applyGaussFilter`, lines 55-101, and the worker
lambda of `processBatch`, lines 130-157)

The transform collaborator (image load, NPP filter, image save) is modelled
as a fallible function; a thrown exception is an `Except.error`.  The
`fs::exists && fs::is_regular_file` guard of line 135 is an abstract
filesystem oracle `valid`. -/

/-- Result of one task, as recorded by the diagnostics of
`applyGaussFilter` (success message line 85, error messages lines 95/99) and
the invalid-path message of `processBatch` (line 148). -/
inductive Status where
  | success
  | failure (err : PathStr)
deriving DecidableEq, Repr

/-- The external transform collaborator: input path and output path to
either success or an error detail (a thrown exception). -/
abbrev Transform := PathStr → PathStr → Except PathStr Unit

/-- The recorded outcome of one discovered task. -/
structure Outcome where
  task : PathStr
  outPath : Option PathStr
  status : Status
deriving DecidableEq, Repr

/-- `applyGaussFilter` (lines 55-101): runs the collaborator and catches
every exception (`catch (const std::exception &)` line 93 and
`catch (...)` line 97), converting it into a failure diagnostic instead of
propagating; the function always returns normally. -/
def applyGaussFilter (t : Transform) (filePath outputFile : PathStr) : Status :=
  match t filePath outputFile with
  | Except.ok _ => Status.success
  | Except.error e => Status.failure e

/-- The `"Invalid image path"` diagnostic of line 148. -/
def invalidPathMessage : PathStr := "Invalid image path".toList

/-- `processBatch` (lines 130-157), observed through the outcome each batch
entry produces: a valid path is handed to a worker running
`applyGaussFilter` on the resolved output path; an invalid path yields the
invalid-path failure diagnostic of line 148. -/
def processBatch (valid : PathStr → Bool) (t : Transform)
    (batch : List PathStr) (outputDir : PathStr) : List Outcome :=
  batch.map fun p =>
    if valid p then
      { task := p
        outPath := some (resolveOutputPath p outputDir)
        status := applyGaussFilter t p (resolveOutputPath p outputDir) }
    else
      { task := p, outPath := none, status := Status.failure invalidPathMessage }

/-! ## Batch partitioning (`processImagesInDirectory`, lines 183-197) -/

/-- The batching loop of lines 188-197: push each path onto the current
batch; flush the batch when it reaches `numThreads` elements or at the last
path.  First argument of the pair is the current `batch` accumulator, the
second the remaining paths. -/
def batchLoop {α : Type} (numThreads : Nat) : List α → List α → List (List α)
  | _, [] => []
  | batch, [x] => [batch ++ [x]]
  | batch, x :: y :: rest =>
    if (batch ++ [x]).length = numThreads then
      (batch ++ [x]) :: batchLoop numThreads [] (y :: rest)
    else
      batchLoop numThreads (batch ++ [x]) (y :: rest)

/-- The partition of the discovered paths into the consecutive groups handed
to `processBatch` by the loop of lines 188-197. -/
def makeBatches {α : Type} (numThreads : Nat) (paths : List α) : List (List α) :=
  batchLoop numThreads [] paths

/-- `processImagesInDirectory`, batching and dispatch part (lines 176-197):
the outcomes of a run are those of each consecutive batch, in order. -/
def processImages (numThreads : Nat) (valid : PathStr → Bool) (t : Transform)
    (inputPaths : List PathStr) (outputDir : PathStr) : List Outcome :=
  ((makeBatches numThreads inputPaths).map
    fun b => processBatch valid t b outputDir).flatten

example : makeBatches 2 ["a", "b", "c", "d", "e"]
    = [["a", "b"], ["c", "d"], ["e"]] := by decide

example : makeBatches 3 ["a", "b", "c"] = [["a", "b", "c"]] := by decide

/-! ## Filesystem model and directory lifecycle
(`cleanupOutputDirectory`, lines 109-119, and the preparation step of
`processImagesInDirectory`, lines 171-174)

A filesystem state is a list of existing directories and a list of existing
regular files, each named by its component path. -/

/-- A filesystem state: component paths of the existing directories and of
the existing regular files. -/
structure FS where
  dirs : List (List String)
  files : List (List String)
deriving DecidableEq, Repr

/-- `fs::exists` on a path: a directory or a regular file is there. -/
def fsExists (fs : FS) (p : List String) : Bool :=
  fs.dirs.contains p || fs.files.contains p

/-- `fs::create_directory(outputDir)` (line 174): creates the single
directory when its parent exists; it does NOT create missing parents
(that would be `create_directories`), and a missing parent is a
`filesystem_error`, modelled as `none`. -/
def createDirectory (fs : FS) (p : List String) : Option FS :=
  if fs.dirs.contains p.dropLast then
    some { dirs := p :: fs.dirs, files := fs.files }
  else
    none

/-- `cleanupOutputDirectory` (lines 109-119): iterates the immediate
entries of the directory and removes every regular file, leaving
subdirectories untouched.  Iterating a path that is not a directory throws
(`none`). -/
def cleanupOutputDirectory (fs : FS) (p : List String) : Option FS :=
  if fs.dirs.contains p then
    some { dirs := fs.dirs, files := fs.files.filter fun f => f.dropLast != p }
  else
    none

/-- The output-directory preparation step of `processImagesInDirectory`
(lines 171-174): clean the directory when the path exists, otherwise create
it. -/
def ensureOutputDirectory (fs : FS) (p : List String) : Option FS :=
  if fsExists fs p then cleanupOutputDirectory fs p else createDirectory fs p

/-- Well-formedness of a filesystem state: every regular file sits in an
existing directory. -/
def FSWellFormed (fs : FS) : Prop :=
  ∀ f ∈ fs.files, fs.dirs.contains f.dropLast = true

/-! ## Run controller (`main`, lines 241-261) -/

/-- The terminal state of one process invocation:
`earlyExit` is the `exit(EXIT_SUCCESS)` of line 245 when the capability
check fails, `fatalAbort` is abnormal termination by an uncaught
`filesystem_error` from the preparation step, and `completed` carries the
run's outcomes and the value returned from `main`. -/
inductive RunResult where
  | earlyExit (code : Nat)
  | fatalAbort
  | completed (outcomes : List Outcome) (code : Nat)
deriving DecidableEq, Repr

/-- `main` (lines 241-261): print versions and exit 0 when the capability
check fails; otherwise prepare the output directory (fatal on error) and
process every discovered input path, then `return 0` (line 260) —
unconditionally, with no inspection of the outcomes. -/
def mainRun (cudaOK : Bool) (fs : FS) (outDirComponents : List String)
    (numThreads : Nat) (valid : PathStr → Bool) (t : Transform)
    (inputPaths : List PathStr) (outputDir : PathStr) : RunResult :=
  if cudaOK = false then
    RunResult.earlyExit 0
  else
    match ensureOutputDirectory fs outDirComponents with
    | none => RunResult.fatalAbort
    | some _ =>
      RunResult.completed (processImages numThreads valid t inputPaths outputDir) 0

/-- The process exit status of a terminal state; `none` for abnormal
termination. -/
def RunResult.exitCode : RunResult → Option Nat
  | RunResult.earlyExit c => some c
  | RunResult.fatalAbort => none
  | RunResult.completed _ c => some c

/-- Whether a status records a failure. -/
def Status.isFailure : Status → Bool
  | Status.success => false
  | Status.failure _ => true

/-- Number of failure outcomes of a completed run. -/
def RunResult.failureCount : RunResult → Nat
  | RunResult.completed outs _ => (outs.filter fun o => o.status.isFailure).length
  | _ => 0

/-! ## Concurrency model of the static-batching scheduler

`processBatch` (lines 130-157) spawns one worker thread per valid path of
its batch and joins them all before returning; `processImagesInDirectory`
(lines 188-197) calls it once per consecutive group.  We model every
possible interleaving as an event-trace relation: a worker's task may be
resolved at any time after it is dispatched, the scheduler moves to group
`k+1` only once group `k` is fully spawned and every in-flight worker is
joined, and the run returns only from the final empty state.  Dispatch and
resolve events are tagged with the index of the group they belong to. -/

/-- An observable scheduler event; `dispatch` is the `emplace_back` of a
worker thread (line 137), `resolve` the completion of a task (a join
observing a worker's end, or the inline invalid-path failure of line 148),
and `ret` the scheduler's return to its caller. -/
inductive Event (α : Type) where
  | dispatch (group : Nat) (task : α)
  | resolve (group : Nat) (task : α)
  | ret
deriving DecidableEq, Repr

/-- The group index an event belongs to (`none` for `ret`). -/
def Event.groupIdx {α : Type} : Event α → Option Nat
  | Event.dispatch k _ => some k
  | Event.resolve k _ => some k
  | Event.ret => none

/-- `Sched valid k gs cur fl tr` holds when `tr` is a possible sequence of
events from the scheduler state in which `gs` are the groups not yet
started, `cur` the unspawned remainder of the current group (index `k`),
and `fl` the in-flight (spawned, unjoined) tasks of the current group,
until the scheduler returns.  The constructors are the atomic steps of the
code: spawning the next path (valid: a dispatch; invalid: the inline
failure of line 148), completion of any in-flight worker, moving to the
next group only when the current group is fully spawned and joined
(join loop, lines 153-156), and returning only from the empty state. -/
inductive Sched {α : Type} (valid : α → Bool) :
    Nat → List (List α) → List α → List α → List (Event α) → Prop where
  | ret {k : Nat} : Sched valid k [] [] [] [Event.ret]
  | nextGroup {k : Nat} {gs : List (List α)} {g : List α} {tr : List (Event α)} :
      Sched valid (k + 1) gs g [] tr →
      Sched valid k (g :: gs) [] [] tr
  | spawnValid {k : Nat} {gs : List (List α)} {cur fl : List α} {p : α}
      {tr : List (Event α)} :
      valid p = true →
      Sched valid k gs cur (fl ++ [p]) tr →
      Sched valid k gs (p :: cur) fl (Event.dispatch k p :: tr)
  | spawnInvalid {k : Nat} {gs : List (List α)} {cur fl : List α} {p : α}
      {tr : List (Event α)} :
      valid p = false →
      Sched valid k gs cur fl tr →
      Sched valid k gs (p :: cur) fl (Event.resolve k p :: tr)
  | resolveStep {k : Nat} {gs : List (List α)} {cur l r : List α} {p : α}
      {tr : List (Event α)} :
      Sched valid k gs cur (l ++ r) tr →
      Sched valid k gs cur (l ++ p :: r) (Event.resolve k p :: tr)

/-- A complete run of the static-batching scheduler on the discovered
paths: all the groups produced by the batching loop, starting before the
first group with nothing in flight. -/
def SchedRun {α : Type} (valid : α → Bool) (numThreads : Nat)
    (paths : List α) (tr : List (Event α)) : Prop :=
  Sched valid 0 (makeBatches numThreads paths) [] [] tr

/-! ## Lemmas about the batching loop -/

/-- Flattening the groups produced by the batching loop restores the
accumulator followed by the remaining paths: the loop of lines 188-197
flushes every path into exactly one group. -/
theorem batchLoop_flatten {α : Type} (n : Nat) :
    ∀ (l batch : List α), l ≠ [] → (batchLoop n batch l).flatten = batch ++ l
  | [], _, h => absurd rfl h
  | [x], batch, _ => by simp [batchLoop]
  | x :: y :: rest, batch, _ => by
    by_cases h : (batch ++ [x]).length = n
    · simp only [batchLoop, if_pos h]
      rw [List.flatten_cons, batchLoop_flatten n (y :: rest) [] (by simp)]
      simp
    · simp only [batchLoop, if_neg h]
      rw [batchLoop_flatten n (y :: rest) (batch ++ [x]) (by simp)]
      simp

/-- The groups handed to `processBatch` concatenate back to exactly the
discovered path list. -/
theorem makeBatches_flatten {α : Type} (n : Nat) (paths : List α) :
    (makeBatches n paths).flatten = paths := by
  cases paths with
  | nil => rfl
  | cons x xs =>
    rw [makeBatches, batchLoop_flatten n (x :: xs) [] (by simp)]
    rfl

/-- Every group produced by the batching loop from an accumulator shorter
than `n` has at most `n` elements. -/
theorem batchLoop_length_le {α : Type} (n : Nat) (hn : 1 ≤ n) :
    ∀ (l batch : List α), batch.length < n →
      ∀ b ∈ batchLoop n batch l, b.length ≤ n
  | [], _, _ => by intro b hb; simp [batchLoop] at hb
  | [x], batch, hb => by
    intro b hmem
    simp only [batchLoop, List.mem_singleton] at hmem
    subst hmem
    simpa using hb
  | x :: y :: rest, batch, hb => by
    intro b hmem
    by_cases h : (batch ++ [x]).length = n
    · simp only [batchLoop, if_pos h, List.mem_cons] at hmem
      rcases hmem with rfl | hmem
      · exact Nat.le_of_eq h
      · exact batchLoop_length_le n hn (y :: rest) [] (by simpa using hn) b hmem
    · simp only [batchLoop, if_neg h] at hmem
      have hlt : (batch ++ [x]).length < n := by
        have : (batch ++ [x]).length ≤ n := by simpa using hb
        exact Nat.lt_of_le_of_ne this h
      exact batchLoop_length_le n hn (y :: rest) (batch ++ [x]) hlt b hmem

/-- Each entry of a batch gives exactly one outcome carrying that entry as
its task. -/
theorem processBatch_map_task (valid : PathStr → Bool) (t : Transform)
    (batch : List PathStr) (outputDir : PathStr) :
    (processBatch valid t batch outputDir).map Outcome.task = batch := by
  rw [processBatch, List.map_map]
  have hfun : (Outcome.task ∘ fun p =>
      if valid p then
        { task := p
          outPath := some (resolveOutputPath p outputDir)
          status := applyGaussFilter t p (resolveOutputPath p outputDir) }
      else
        { task := p, outPath := none,
          status := Status.failure invalidPathMessage } : PathStr → PathStr)
      = id := by
    funext p
    by_cases h : valid p <;> simp [h, Function.comp]
  rw [hfun, List.map_id]

/-- C1: every input path discovered by walking the input directory yields
exactly one Outcome — the outcomes of a run, in order, carry exactly the
discovered paths as their tasks (none dropped, none processed twice), and
the number of Outcomes equals the number of discovered tasks.  Invalid
paths are resolved inline by the diagnostic of line 148; valid paths by the
worker outcome of `applyGaussFilter`. -/
theorem c1_one_outcome_per_discovered_task (numThreads : Nat)
    (valid : PathStr → Bool) (t : Transform) (inputPaths : List PathStr)
    (outputDir : PathStr) :
    (processImages numThreads valid t inputPaths outputDir).map Outcome.task
        = inputPaths
    ∧ (processImages numThreads valid t inputPaths outputDir).length
        = inputPaths.length := by
  have hmap : (processImages numThreads valid t inputPaths outputDir).map
      Outcome.task = inputPaths := by
    rw [processImages, List.map_flatten, List.map_map]
    have hcomp : (List.map Outcome.task ∘ fun b =>
        processBatch valid t b outputDir) = id := by
      funext b
      simpa [Function.comp] using processBatch_map_task valid t b outputDir
    rw [hcomp, List.map_id, makeBatches_flatten]
  refine ⟨hmap, ?_⟩
  have := congrArg List.length hmap
  simpa using this

/-- C2: the scheduler partitions the discovered task sequence into
consecutive groups of size at most `C`, the concurrency limit (the
`numThreads` of line 184, at least one on any host with an execution
unit): every group handed to `processBatch` has length at most `C`. -/
theorem c2_every_batch_at_most_C {α : Type} (C : Nat) (hC : 1 ≤ C)
    (paths : List α) : ∀ b ∈ makeBatches C paths, b.length ≤ C :=
  batchLoop_length_le C hC paths [] (by simpa using hC)

/-- Witness for C2 at a concrete input: three paths with concurrency two
give groups of size at most two. -/
theorem c2_every_batch_at_most_C_witness :
    1 ≤ 2 ∧ ∀ b ∈ makeBatches 2 ["a", "b", "c"], b.length ≤ 2 :=
  ⟨by decide, c2_every_batch_at_most_C 2 (by decide) ["a", "b", "c"]⟩

/-! ## Lemmas about `find_last_of` and the output path resolver -/

/-- Unfolding equation of `findLastIdx` on a nonempty string. -/
theorem findLastIdx_cons (q : Char → Bool) (c : Char) (cs : List Char) :
    findLastIdx q (c :: cs)
      = match findLastIdx q cs with
        | some i => some (i + 1)
        | none => if q c then some 0 else none := rfl

/-- `find_last_of` over a concatenation when the right part has a match:
the match of the whole string lies in the right part. -/
theorem findLastIdx_append_some (q : Char → Bool) (ys : List Char) (j : Nat)
    (h : findLastIdx q ys = some j) :
    ∀ xs : List Char, findLastIdx q (xs ++ ys) = some (xs.length + j)
  | [] => by simpa using h
  | c :: xs => by
    have ih := findLastIdx_append_some q ys j h xs
    rw [List.cons_append, findLastIdx_cons, ih]
    show some (xs.length + j + 1) = some ((c :: xs).length + j)
    congr 1
    simp only [List.length_cons]
    omega

/-- `find_last_of` over a concatenation when the right part has no match:
the search falls back to the left part. -/
theorem findLastIdx_append_none (q : Char → Bool) (ys : List Char)
    (h : findLastIdx q ys = none) :
    ∀ xs : List Char, findLastIdx q (xs ++ ys) = findLastIdx q xs
  | [] => by simpa using h
  | c :: xs => by
    have ih := findLastIdx_append_none q ys h xs
    rw [List.cons_append, findLastIdx_cons, ih, findLastIdx_cons]

/-- A found index is within the string. -/
theorem findLastIdx_lt_length (q : Char → Bool) :
    ∀ (l : List Char) (i : Nat), findLastIdx q l = some i → i < l.length
  | [], _, h => by simp [findLastIdx] at h
  | c :: cs, i, h => by
    simp only [findLastIdx] at h
    cases hcs : findLastIdx q cs with
    | some j =>
      rw [hcs] at h
      cases h
      have := findLastIdx_lt_length q cs j hcs
      simp only [List.length_cons]
      omega
    | none =>
      rw [hcs] at h
      by_cases hc : q c
      · rw [if_pos hc] at h
        cases h
        simp
      · rw [if_neg hc] at h
        cases h

/-- When the base file name contains a `.`, the code's join-then-strip
computation agrees with the spec-described strip-base-then-join one. -/
theorem resolveOutputPath_eq_spec_of_base_dot (p d : PathStr) (j : Nat)
    (hj : findLastIdx isDot (basenameOf p) = some j) :
    resolveOutputPath p d = specResolveOutputPath p d := by
  have h1 : findLastIdx isDot ('/' :: basenameOf p) = some (j + 1) := by
    simp [findLastIdx, hj]
  have h2 : findLastIdx isDot (d ++ '/' :: basenameOf p)
      = some (d.length + (j + 1)) :=
    findLastIdx_append_some isDot _ _ h1 d
  rw [resolveOutputPath, specResolveOutputPath, stripLastDot, h2,
    stripLastDot, hj]
  show List.take (d.length + (j + 1)) (d ++ '/' :: basenameOf p) ++ filterSuffix
      = d ++ '/' :: (List.take j (basenameOf p) ++ filterSuffix)
  rw [List.take_append, List.take_succ_cons]
  simp

/-- When neither the base file name nor the output directory contains a
`.`, the truncation is the identity on both sides and the two computations
agree as well. -/
theorem resolveOutputPath_eq_spec_of_no_dot (p d : PathStr)
    (hb : findLastIdx isDot (basenameOf p) = none)
    (hd : findLastIdx isDot d = none) :
    resolveOutputPath p d = specResolveOutputPath p d := by
  have h1 : findLastIdx isDot ('/' :: basenameOf p) = none := by
    simp [findLastIdx, hb, isDot]
  have h2 : findLastIdx isDot (d ++ '/' :: basenameOf p) = none := by
    rw [findLastIdx_append_none isDot _ h1 d, hd]
  rw [resolveOutputPath, specResolveOutputPath, stripLastDot, h2,
    stripLastDot, hb]
  simp

/-- The code's resolver agrees with the spec's description whenever the
base name carries an extension or the output directory is dot-free. -/
theorem resolveOutputPath_eq_spec (p d : PathStr)
    (h : (findLastIdx isDot (basenameOf p)).isSome
      ∨ findLastIdx isDot d = none) :
    resolveOutputPath p d = specResolveOutputPath p d := by
  cases hb : findLastIdx isDot (basenameOf p) with
  | some j => exact resolveOutputPath_eq_spec_of_base_dot p d j hb
  | none =>
    rcases h with hs | hd
    · rw [hb] at hs
      cases hs
    · exact resolveOutputPath_eq_spec_of_no_dot p d hb hd

/-- C3, counterexample: the resolver does not in general strip the
extension of the base name — for the extensionless input `/a/img` and the
output directory `../out` the code truncates at a `.` inside the output
directory, which the claim's described computation never does. -/
theorem c3_counterexample :
    resolveOutputPath "/a/img".toList "../out".toList
      ≠ specResolveOutputPath "/a/img".toList "../out".toList := by decide

/-- C3 (amended): provided the base file name contains a `.` or the output
directory contains none, the resolver extracts the base name (after the
last separator), strips the extension, appends the fixed
`_gauss_filtered.pgm` suffix, and joins with the output directory — and in
particular `/a/img.bmp` against `/out` resolves to
`/out/img_gauss_filtered.pgm`. -/
theorem c3_resolver_matches_description (p d : PathStr)
    (h : (findLastIdx isDot (basenameOf p)).isSome
      ∨ findLastIdx isDot d = none) :
    resolveOutputPath p d = specResolveOutputPath p d :=
  resolveOutputPath_eq_spec p d h

/-- Witness for C3 at the claim's own instance. -/
theorem c3_resolver_matches_description_witness :
    ((findLastIdx isDot (basenameOf "/a/img.bmp".toList)).isSome
      ∨ findLastIdx isDot "/out".toList = none)
    ∧ resolveOutputPath "/a/img.bmp".toList "/out".toList
        = specResolveOutputPath "/a/img.bmp".toList "/out".toList
    ∧ specResolveOutputPath "/a/img.bmp".toList "/out".toList
        = "/out/img_gauss_filtered.pgm".toList :=
  ⟨by decide,
   c3_resolver_matches_description "/a/img.bmp".toList "/out".toList (by decide),
   by decide⟩

/-- C4, counterexample: two input paths with distinct base names
(`img.bmp` versus `img.png`) are mapped to the same output path, because
the resolver keys on the stem, not the whole base name. -/
theorem c4_counterexample :
    basenameOf "/a/img.bmp".toList ≠ basenameOf "/b/img.png".toList
    ∧ resolveOutputPath "/a/img.bmp".toList "/out".toList
        = resolveOutputPath "/b/img.png".toList "/out".toList := by decide

/-- C4 (amended): for a dot-free output directory, two input paths whose
base-name stems (base name with the portion from the last `.` removed)
differ are mapped to distinct output paths; distinctness of the full base
names is not enough, since base names differing only in their extension
collide. -/
theorem c4_distinct_stems_distinct_outputs (p1 p2 d : PathStr)
    (hd : findLastIdx isDot d = none)
    (hstem : stripLastDot (basenameOf p1) ≠ stripLastDot (basenameOf p2)) :
    resolveOutputPath p1 d ≠ resolveOutputPath p2 d := by
  rw [resolveOutputPath_eq_spec p1 d (Or.inr hd),
    resolveOutputPath_eq_spec p2 d (Or.inr hd)]
  intro h
  apply hstem
  have h1 := List.append_cancel_left h
  have h2 := List.cons.inj h1
  exact List.append_cancel_right h2.2

/-- Witness for C4: `img.bmp` and `pic.png` have distinct stems and get
distinct output paths. -/
theorem c4_distinct_stems_distinct_outputs_witness :
    findLastIdx isDot "/out".toList = none
    ∧ stripLastDot (basenameOf "/a/img.bmp".toList)
        ≠ stripLastDot (basenameOf "/b/pic.png".toList)
    ∧ resolveOutputPath "/a/img.bmp".toList "/out".toList
        ≠ resolveOutputPath "/b/pic.png".toList "/out".toList :=
  ⟨by decide, by decide,
   c4_distinct_stems_distinct_outputs "/a/img.bmp".toList "/b/pic.png".toList
     "/out".toList (by decide) (by decide)⟩

/-- C10: when the base name contains no `.` and the output directory does
contain one, the truncation point of line 142 is the last `.` of the whole
joined string, which lies inside the output directory: the resolved output
path is a proper prefix of the output directory followed by the fixed
suffix — the rest of the directory and the entire base name are lost. -/
theorem c10_truncation_searches_joined_string (p d : PathStr)
    (hb : findLastIdx isDot (basenameOf p) = none)
    (hd : (findLastIdx isDot d).isSome) :
    ∃ i, findLastIdx isDot d = some i ∧ i < d.length
      ∧ resolveOutputPath p d = d.take i ++ filterSuffix := by
  obtain ⟨i, hi⟩ := Option.isSome_iff_exists.mp hd
  have h1 : findLastIdx isDot ('/' :: basenameOf p) = none := by
    simp [findLastIdx, hb, isDot]
  have h2 : findLastIdx isDot (d ++ '/' :: basenameOf p) = some i := by
    rw [findLastIdx_append_none isDot _ h1 d, hi]
  have hlt : i < d.length := findLastIdx_lt_length isDot d i hi
  refine ⟨i, hi, hlt, ?_⟩
  rw [resolveOutputPath, stripLastDot, h2]
  show List.take i (d ++ '/' :: basenameOf p) ++ filterSuffix
      = List.take i d ++ filterSuffix
  rw [List.take_append_of_le_length (Nat.le_of_lt hlt)]

/-- Witness for C10: resolving the extensionless `/a/img` against
`../output` truncates inside the directory. -/
theorem c10_truncation_searches_joined_string_witness :
    findLastIdx isDot (basenameOf "/a/img".toList) = none
    ∧ (findLastIdx isDot "../output".toList).isSome
    ∧ ∃ i, findLastIdx isDot "../output".toList = some i
        ∧ i < "../output".toList.length
        ∧ resolveOutputPath "/a/img".toList "../output".toList
            = "../output".toList.take i ++ filterSuffix :=
  ⟨by decide, by decide,
   c10_truncation_searches_joined_string "/a/img".toList "../output".toList
     (by decide) (by decide)⟩

/-! ## Per-task failure isolation and resolver purity -/

/-- C6: any error raised while transforming a task is caught at the
per-task boundary (the catch blocks of lines 93-100) and converted into a
Failure outcome; it never aborts sibling tasks — the batch still produces
one outcome per entry, and the outcome recorded at any position depends
only on the collaborator's behaviour on that position's own task, so
replacing the collaborator's behaviour on a failing task's siblings leaves
that task's outcome unchanged. -/
theorem c6_task_failure_isolated (valid : PathStr → Bool) (t1 t2 : Transform)
    (batch : List PathStr) (d : PathStr) (j : Nat) (p : PathStr) (e : PathStr)
    (hp : batch[j]? = some p)
    (hagree : ∀ o, t1 p o = t2 p o)
    (hv : valid p = true)
    (he : t1 p (resolveOutputPath p d) = Except.error e) :
    (processBatch valid t1 batch d).length = batch.length
    ∧ (processBatch valid t1 batch d)[j]? = (processBatch valid t2 batch d)[j]?
    ∧ (processBatch valid t1 batch d)[j]? = some
        { task := p, outPath := some (resolveOutputPath p d),
          status := Status.failure e } := by
  refine ⟨by simp [processBatch], ?_, ?_⟩
  · have hfilter : applyGaussFilter t1 p (resolveOutputPath p d)
        = applyGaussFilter t2 p (resolveOutputPath p d) := by
      rw [applyGaussFilter, applyGaussFilter, hagree]
    simp [processBatch, List.getElem?_map, hp, hv, hfilter]
  · simp [processBatch, List.getElem?_map, hp, hv, applyGaussFilter, he]

/-- Witness for C6: a collaborator that always throws produces exactly one
Failure outcome for its task. -/
theorem c6_task_failure_isolated_witness :
    (processBatch (fun _ => true) (fun _ _ => Except.error "disk error".toList)
        ["/a/img.bmp".toList] "/out".toList).length = 1
    ∧ (processBatch (fun _ => true) (fun _ _ => Except.error "disk error".toList)
          ["/a/img.bmp".toList] "/out".toList)[0]?
        = (processBatch (fun _ => true) (fun _ _ => Except.error "disk error".toList)
          ["/a/img.bmp".toList] "/out".toList)[0]?
    ∧ (processBatch (fun _ => true) (fun _ _ => Except.error "disk error".toList)
          ["/a/img.bmp".toList] "/out".toList)[0]? = some
        { task := "/a/img.bmp".toList,
          outPath := some (resolveOutputPath "/a/img.bmp".toList "/out".toList),
          status := Status.failure "disk error".toList } :=
  c6_task_failure_isolated (fun _ => true)
    (fun _ _ => Except.error "disk error".toList)
    (fun _ _ => Except.error "disk error".toList)
    ["/a/img.bmp".toList] "/out".toList 0 "/a/img.bmp".toList
    "disk error".toList (by decide) (fun _ => rfl) (by decide) rfl

/-- C9: output path resolution is deterministic and side-effect-free.  The
resolution of lines 139-142 is embedded as the pure string function
`resolveOutputPath`, which takes no filesystem state; accordingly, two runs
over arbitrary different filesystem oracles, collaborators, and batch
contents record the same output path for the same task and output
directory. -/
theorem c9_resolution_deterministic_pure (valid1 valid2 : PathStr → Bool)
    (t1 t2 : Transform) (batch1 batch2 : List PathStr) (d : PathStr)
    (j1 j2 : Nat) (p : PathStr)
    (h1 : batch1[j1]? = some p) (h2 : batch2[j2]? = some p)
    (hv1 : valid1 p = true) (hv2 : valid2 p = true) :
    ((processBatch valid1 t1 batch1 d)[j1]?.map Outcome.outPath)
        = some (some (resolveOutputPath p d))
    ∧ ((processBatch valid2 t2 batch2 d)[j2]?.map Outcome.outPath)
        = some (some (resolveOutputPath p d)) := by
  constructor
  · simp [processBatch, List.getElem?_map, h1, hv1]
  · simp [processBatch, List.getElem?_map, h2, hv2]

/-- Witness for C9: a failing and a succeeding run, over different batch
layouts, record the identical resolved output path for the same task. -/
theorem c9_resolution_deterministic_pure_witness :
    ((processBatch (fun _ => true) (fun _ _ => Except.error "boom".toList)
          ["/a/img.bmp".toList] "/out".toList)[0]?.map Outcome.outPath)
        = some (some (resolveOutputPath "/a/img.bmp".toList "/out".toList))
    ∧ ((processBatch (fun q => q != "/z".toList) (fun _ _ => Except.ok ())
          ["/b/other.pgm".toList, "/a/img.bmp".toList]
          "/out".toList)[1]?.map Outcome.outPath)
        = some (some (resolveOutputPath "/a/img.bmp".toList "/out".toList)) :=
  c9_resolution_deterministic_pure (fun _ => true)
    (fun q => q != "/z".toList)
    (fun _ _ => Except.error "boom".toList) (fun _ _ => Except.ok ())
    ["/a/img.bmp".toList] ["/b/other.pgm".toList, "/a/img.bmp".toList]
    "/out".toList 0 1 "/a/img.bmp".toList
    (by decide) (by decide) (by decide) (by decide)

/-! ## Directory lifecycle and run controller claims -/

/-- C5, counterexample: when the output directory is missing and its parent
is missing too, the preparation step does not create the directory together
with its parents — `fs::create_directory` (line 174) creates a single
level, so the step fails and no directory exists afterward.  Filesystem:
only the root directory exists; requested output directory: `a/b`. -/
theorem c5_counterexample :
    ensureOutputDirectory { dirs := [([] : List String)], files := [] }
      ["a", "b"] = none := by decide

/-- C5 (amended): on a well-formed filesystem, whenever the preparation
step of lines 171-174 succeeds, the output directory exists and contains no
regular files afterward; immediate regular files are deleted,
subdirectories are left untouched, and files outside the directory are
preserved.  If the directory is missing it is created only when its parent
already exists — missing parents are not created (the step fails fatally
instead). -/
theorem c5_prepare_output_directory (fs : FS) (p : List String) (fs2 : FS)
    (hwf : FSWellFormed fs)
    (h : ensureOutputDirectory fs p = some fs2) :
    fs2.dirs.contains p = true
    ∧ (∀ f ∈ fs2.files, f.dropLast ≠ p)
    ∧ (∀ dd ∈ fs.dirs, dd ∈ fs2.dirs)
    ∧ (∀ f ∈ fs.files, f.dropLast ≠ p → f ∈ fs2.files) := by
  rw [ensureOutputDirectory] at h
  by_cases hex : fsExists fs p
  · rw [if_pos hex, cleanupOutputDirectory] at h
    by_cases hdir : fs.dirs.contains p
    · rw [if_pos hdir] at h
      cases h
      refine ⟨hdir, ?_, fun dd hdd => hdd, ?_⟩
      · intro f hf
        have := List.of_mem_filter hf
        simpa using this
      · intro f hf hne
        exact List.mem_filter_of_mem hf (by simpa using hne)
    · rw [if_neg hdir] at h
      cases h
  · rw [if_neg hex, createDirectory] at h
    by_cases hpar : fs.dirs.contains p.dropLast
    · rw [if_pos hpar] at h
      cases h
      refine ⟨by simp, ?_, fun dd hdd => by simp [hdd], fun f hf _ => hf⟩
      intro f hf heq
      have hmem : fs.dirs.contains f.dropLast = true := hwf f hf
      have hpd : fs.dirs.contains p = true := by rw [← heq]; exact hmem
      have : fsExists fs p = true := by
        rw [fsExists, hpd]
        simp
      exact hex this
    · rw [if_neg hpar] at h
      cases h

/-- A sample filesystem: an `out` directory holding a stale regular file
and a subdirectory, plus a regular file `top` at the root. -/
def fsDemo : FS :=
  { dirs := [[], ["out"], ["out", "sub"]]
    files := [["out", "stale"], ["top"]] }

/-- `fsDemo` after the preparation step cleaned the `out` directory. -/
def fsDemoCleaned : FS :=
  { dirs := [[], ["out"], ["out", "sub"]]
    files := [["top"]] }

/-- Witness for C5: cleaning an existing directory holding one stale file
and one subdirectory deletes the file, keeps the subdirectory, and keeps a
file living elsewhere. -/
theorem c5_prepare_output_directory_witness :
    FSWellFormed fsDemo
    ∧ ensureOutputDirectory fsDemo ["out"] = some fsDemoCleaned
    ∧ fsDemoCleaned.dirs.contains ["out"] = true
    ∧ (∀ f ∈ fsDemoCleaned.files, f.dropLast ≠ ["out"])
    ∧ (∀ dd ∈ fsDemo.dirs, dd ∈ fsDemoCleaned.dirs)
    ∧ (∀ f ∈ fsDemo.files, f.dropLast ≠ ["out"] → f ∈ fsDemoCleaned.files) := by
  refine ⟨by unfold FSWellFormed; decide, by decide, ?_⟩
  have h := c5_prepare_output_directory fsDemo ["out"] fsDemoCleaned
    (by unfold FSWellFormed; decide) (by decide)
  exact ⟨h.1, h.2.1, h.2.2.1, h.2.2.2⟩

/-- C7, counterexample: the process exit status does not distinguish
completed-with-failures from full success — a run whose single task fails
and a run whose single task succeeds both exit with status 0 (the
unconditional `return 0` of line 260), and no aggregate summary is
computed anywhere in `main`. -/
theorem c7_counterexample :
    (mainRun true { dirs := [([] : List String)], files := [] } ["out"] 2
        (fun _ => true) (fun _ _ => Except.error "boom".toList)
        ["/a/img.bmp".toList] "/out".toList).exitCode = some 0
    ∧ (mainRun true { dirs := [([] : List String)], files := [] } ["out"] 2
        (fun _ => true) (fun _ _ => Except.error "boom".toList)
        ["/a/img.bmp".toList] "/out".toList).failureCount = 1
    ∧ (mainRun true { dirs := [([] : List String)], files := [] } ["out"] 2
        (fun _ => true) (fun _ _ => Except.ok ())
        ["/a/img.bmp".toList] "/out".toList).exitCode = some 0
    ∧ (mainRun true { dirs := [([] : List String)], files := [] } ["out"] 2
        (fun _ => true) (fun _ _ => Except.ok ())
        ["/a/img.bmp".toList] "/out".toList).failureCount = 0 := by
  refine ⟨by decide, by decide, by decide, by decide⟩

/-- C7 (amended): the run prints per-file messages but aggregates no
summary, and the exit status distinguishes only a fatal setup abort from a
completed run: a fatal lifecycle failure before dispatch yields abnormal
termination, while every completed run exits with status 0 regardless of
how many tasks failed (completed-with-failures and full success are not
distinguished). -/
theorem c7_exit_status (cudaOK : Bool) (fs : FS) (outDirComponents : List String)
    (numThreads : Nat) (valid : PathStr → Bool) (t : Transform)
    (inputPaths : List PathStr) (outputDir : PathStr)
    (hcuda : cudaOK = true) :
    (ensureOutputDirectory fs outDirComponents = none →
      mainRun cudaOK fs outDirComponents numThreads valid t inputPaths outputDir
        = RunResult.fatalAbort)
    ∧ (∀ outs code,
        mainRun cudaOK fs outDirComponents numThreads valid t inputPaths outputDir
          = RunResult.completed outs code → code = 0) := by
  subst hcuda
  constructor
  · intro hfail
    rw [mainRun]
    simp [hfail]
  · intro outs code hcomp
    rw [mainRun] at hcomp
    simp only [Bool.true_eq_false, if_false] at hcomp
    cases hprep : ensureOutputDirectory fs outDirComponents with
    | none => rw [hprep] at hcomp; cases hcomp
    | some fs2 =>
      rw [hprep] at hcomp
      cases hcomp
      rfl

/-- Witness for C7: a completed failing run exits with status 0. -/
theorem c7_exit_status_witness :
    (ensureOutputDirectory { dirs := [([] : List String)], files := [] } ["out"] = none →
      mainRun true { dirs := [([] : List String)], files := [] } ["out"] 2
        (fun _ => true) (fun _ _ => Except.error "boom".toList)
        ["/a/img.bmp".toList] "/out".toList = RunResult.fatalAbort)
    ∧ (∀ outs code,
        mainRun true { dirs := [([] : List String)], files := [] } ["out"] 2
          (fun _ => true) (fun _ _ => Except.error "boom".toList)
          ["/a/img.bmp".toList] "/out".toList = RunResult.completed outs code →
          code = 0) :=
  c7_exit_status true { dirs := [([] : List String)], files := [] } ["out"] 2
    (fun _ => true) (fun _ _ => Except.error "boom".toList)
    ["/a/img.bmp".toList] "/out".toList rfl

/-! ## Scheduler trace lemmas (for the static-batching barrier claim) -/

/-- The dispatches a scheduler state still owes: the valid entries of each
unstarted group, tagged with the group index it will receive (the group at
position `m` of `gs` gets index `k + m + 1`). -/
def plannedDispatches {α : Type} [DecidableEq α] (valid : α → Bool) :
    Nat → List (List α) → Nat → α → Nat
  | _, [], _, _ => 0
  | k, g :: gs, k2, q =>
    (if k2 = k + 1 then (g.filter valid).count q else 0)
      + plannedDispatches valid (k + 1) gs k2 q

/-- In any completion of a scheduler state, the trace ends with the single
`ret` event: the scheduler returns exactly once, and only at the end. -/
theorem sched_ret_last {α : Type} (valid : α → Bool)
    {k : Nat} {gs : List (List α)} {cur fl : List α} {tr : List (Event α)}
    (h : Sched valid k gs cur fl tr) :
    ∃ t0, tr = t0 ++ [Event.ret] ∧ Event.ret ∉ t0 := by
  induction h with
  | ret => exact ⟨[], rfl, by simp⟩
  | nextGroup _ ih => exact ih
  | spawnValid hv _ ih =>
    obtain ⟨t0, rfl, hni⟩ := ih
    exact ⟨Event.dispatch _ _ :: t0, rfl, by simp [hni]⟩
  | spawnInvalid hv _ ih =>
    obtain ⟨t0, rfl, hni⟩ := ih
    exact ⟨Event.resolve _ _ :: t0, rfl, by simp [hni]⟩
  | resolveStep _ ih =>
    obtain ⟨t0, rfl, hni⟩ := ih
    exact ⟨Event.resolve _ _ :: t0, rfl, by simp [hni]⟩

/-- In any completion of a scheduler state, each task's resolve events
cover its dispatch events plus its currently in-flight copies: no
dispatched task is abandoned before the scheduler returns. -/
theorem sched_resolve_covers_dispatch {α : Type} [DecidableEq α]
    (valid : α → Bool)
    {k : Nat} {gs : List (List α)} {cur fl : List α} {tr : List (Event α)}
    (h : Sched valid k gs cur fl tr) :
    ∀ (k2 : Nat) (q : α),
      tr.count (Event.dispatch k2 q) + (if k2 = k then fl.count q else 0)
        ≤ tr.count (Event.resolve k2 q) := by
  induction h with
  | ret =>
    intro k2 q
    simp [List.count_cons]
  | nextGroup _ ih =>
    intro k2 q
    simpa using ih k2 q
  | @spawnValid k gs cur fl p tr hv hprem ih =>
    intro k2 q
    have hih := ih k2 q
    by_cases hk : k2 = k
    · subst hk
      by_cases hq : q = p
      · subst hq
        simp [List.count_cons, List.count_append] at hih ⊢
        omega
      · simp [List.count_cons, List.count_append, hq] at hih ⊢
        omega
    · simp [List.count_cons, List.count_append, hk] at hih ⊢
      omega
  | @spawnInvalid k gs cur fl p tr hv hprem ih =>
    intro k2 q
    have hih := ih k2 q
    by_cases hk : k2 = k
    · subst hk
      by_cases hq : q = p
      · subst hq
        simp [List.count_cons] at hih ⊢
        omega
      · simp [List.count_cons, hq] at hih ⊢
        omega
    · simp [List.count_cons, hk] at hih ⊢
      omega
  | @resolveStep k gs cur l r p tr hprem ih =>
    intro k2 q
    have hih := ih k2 q
    by_cases hk : k2 = k
    · subst hk
      by_cases hq : q = p
      · subst hq
        simp [List.count_cons, List.count_append] at hih ⊢
        omega
      · simp [List.count_cons, List.count_append, hq] at hih ⊢
        omega
    · simp [List.count_cons, List.count_append, hk] at hih ⊢
      omega

/-- Every event of a completion of a scheduler state carries a group index
at least the current one. -/
theorem sched_event_group_ge {α : Type} (valid : α → Bool)
    {k : Nat} {gs : List (List α)} {cur fl : List α} {tr : List (Event α)}
    (h : Sched valid k gs cur fl tr) :
    ∀ e ∈ tr, ∀ i, e.groupIdx = some i → k ≤ i := by
  induction h with
  | ret =>
    intro e he i hi
    simp only [List.mem_singleton] at he
    subst he
    simp [Event.groupIdx] at hi
  | nextGroup _ ih =>
    intro e he i hi
    exact Nat.le_of_succ_le (ih e he i hi)
  | @spawnValid k gs cur fl p tr hv hprem ih =>
    intro e he i hi
    rcases List.mem_cons.mp he with rfl | he2
    · simp only [Event.groupIdx, Option.some.injEq] at hi
      exact Nat.le_of_eq hi
    · exact ih e he2 i hi
  | @spawnInvalid k gs cur fl p tr hv hprem ih =>
    intro e he i hi
    rcases List.mem_cons.mp he with rfl | he2
    · simp only [Event.groupIdx, Option.some.injEq] at hi
      exact Nat.le_of_eq hi
    · exact ih e he2 i hi
  | @resolveStep k gs cur l r p tr hprem ih =>
    intro e he i hi
    rcases List.mem_cons.mp he with rfl | he2
    · simp only [Event.groupIdx, Option.some.injEq] at hi
      exact Nat.le_of_eq hi
    · exact ih e he2 i hi

/-- Group indices are monotone along any completion trace: every event of
group `k` precedes every event of any later group, so a group is entirely
finished — dispatches and resolutions — before the next group's first
event. -/
theorem sched_group_monotone {α : Type} (valid : α → Bool)
    {k : Nat} {gs : List (List α)} {cur fl : List α} {tr : List (Event α)}
    (h : Sched valid k gs cur fl tr) :
    List.Pairwise (fun a b => ∀ i j, Event.groupIdx a = some i →
      Event.groupIdx b = some j → i ≤ j) tr := by
  induction h with
  | ret => simp
  | nextGroup _ ih => exact ih
  | @spawnValid k gs cur fl p tr hv hprem ih =>
    refine List.Pairwise.cons ?_ ih
    intro b hb i j hi hj
    simp only [Event.groupIdx, Option.some.injEq] at hi
    subst hi
    exact sched_event_group_ge valid hprem b hb j hj
  | @spawnInvalid k gs cur fl p tr hv hprem ih =>
    refine List.Pairwise.cons ?_ ih
    intro b hb i j hi hj
    simp only [Event.groupIdx, Option.some.injEq] at hi
    subst hi
    exact sched_event_group_ge valid hprem b hb j hj
  | @resolveStep k gs cur l r p tr hprem ih =>
    refine List.Pairwise.cons ?_ ih
    intro b hb i j hi hj
    simp only [Event.groupIdx, Option.some.injEq] at hi
    subst hi
    exact sched_event_group_ge valid hprem b hb j hj

/-- Dispatch events are fully accounted for: every valid task of every
pending group is dispatched, tagged with its group's index, exactly its
multiplicity in that group — no valid task of a batch is left
undispatched. -/
theorem sched_dispatch_count {α : Type} [DecidableEq α] (valid : α → Bool)
    {k : Nat} {gs : List (List α)} {cur fl : List α} {tr : List (Event α)}
    (h : Sched valid k gs cur fl tr) :
    ∀ (k2 : Nat) (q : α),
      tr.count (Event.dispatch k2 q)
        = (if k2 = k then (cur.filter valid).count q else 0)
          + plannedDispatches valid k gs k2 q := by
  induction h with
  | ret =>
    intro k2 q
    simp [plannedDispatches, List.count_cons]
  | @nextGroup k gs g tr hprem ih =>
    intro k2 q
    simpa [plannedDispatches] using ih k2 q
  | @spawnValid k gs cur fl p tr hv hprem ih =>
    intro k2 q
    have hih := ih k2 q
    by_cases hk : k2 = k
    · subst hk
      by_cases hq : q = p
      · subst hq
        simp [List.count_cons, List.filter_cons, hv] at hih ⊢
        omega
      · simp [List.count_cons, List.filter_cons, hv, hq] at hih ⊢
        omega
    · simp [List.count_cons, hk] at hih ⊢
      omega
  | @spawnInvalid k gs cur fl p tr hv hprem ih =>
    intro k2 q
    have hih := ih k2 q
    by_cases hk : k2 = k
    · subst hk
      simp [List.count_cons, List.filter_cons, hv] at hih ⊢
      omega
    · simp [List.count_cons, hk] at hih ⊢
      omega
  | @resolveStep k gs cur l r p tr hprem ih =>
    intro k2 q
    simpa [List.count_cons] using ih k2 q

/-- C8: in the static-batching strategy, for every possible interleaving of
worker completions: the batch scheduler returns exactly once, at the very
end of the trace (no task is abandoned mid-flight); every valid task of
every group produced by the batching loop is dispatched, tagged with its
group index, exactly its multiplicity in that group; every dispatch is
covered by a resolution with the same group tag; and group indices are
monotone along the trace — so a group's dispatches and resolutions are all
complete before any event of a later group, i.e. the entire group finishes
before the next group starts, and every dispatched task is resolved before
the scheduler returns. -/
theorem c8_group_barrier_and_completion {α : Type} [DecidableEq α]
    (valid : α → Bool) (numThreads : Nat) (paths : List α)
    (tr : List (Event α)) (h : SchedRun valid numThreads paths tr) :
    (∃ t0, tr = t0 ++ [Event.ret] ∧ Event.ret ∉ t0)
    ∧ (∀ (k2 : Nat) (q : α), tr.count (Event.dispatch k2 q)
        = plannedDispatches valid 0 (makeBatches numThreads paths) k2 q)
    ∧ (∀ (k2 : Nat) (q : α),
        tr.count (Event.dispatch k2 q) ≤ tr.count (Event.resolve k2 q))
    ∧ List.Pairwise (fun a b => ∀ i j, Event.groupIdx a = some i →
        Event.groupIdx b = some j → i ≤ j) tr := by
  refine ⟨sched_ret_last valid h, ?_, ?_, sched_group_monotone valid h⟩
  · intro k2 q
    simpa using sched_dispatch_count valid h k2 q
  · intro k2 q
    simpa using sched_resolve_covers_dispatch valid h k2 q

/-- One concrete complete interleaving: a single valid path with
concurrency one, dispatched in group 1, resolved, then returned. -/
def sampleTrace : List (Event Nat) :=
  [Event.dispatch 1 0, Event.resolve 1 0, Event.ret]

/-- Witness for C8 at a concrete run and interleaving. -/
theorem c8_group_barrier_and_completion_witness :
    (∃ t0, sampleTrace = t0 ++ [Event.ret] ∧ Event.ret ∉ t0)
    ∧ (∀ (k2 : Nat) (q : Nat), sampleTrace.count (Event.dispatch k2 q)
        = plannedDispatches (fun _ => true) 0 (makeBatches 1 [0]) k2 q)
    ∧ (∀ (k2 : Nat) (q : Nat),
        sampleTrace.count (Event.dispatch k2 q)
          ≤ sampleTrace.count (Event.resolve k2 q))
    ∧ List.Pairwise (fun a b => ∀ i j, Event.groupIdx a = some i →
        Event.groupIdx b = some j → i ≤ j) sampleTrace := by
  refine c8_group_barrier_and_completion (fun _ => true) 1 [0] sampleTrace ?_
  show Sched (fun _ => true) 0 (makeBatches 1 [0]) [] [] sampleTrace
  rw [show makeBatches 1 ([0] : List Nat) = [[0]] from by decide]
  apply Sched.nextGroup
  apply Sched.spawnValid rfl
  show Sched (fun _ => true) 1 [] [] ([] ++ [0]) [Event.resolve 1 0, Event.ret]
  apply Sched.resolveStep
  exact Sched.ret

end GaussFilter
